import Mathlib

/-!
Verification of the Baby Manus agent orchestration loop (`src/agent.py`,
`src/tools.py`) against its natural-language specification.

The embedding models:
- streamed response fragments (`delta` objects) and the tool-call
  accumulator keyed by positional index (`Agent.agentic_loop`, the
  `for chunk in stream` loop);
- the dispatch phase (JSON parse, registry lookup by exact class name,
  sequential execution, message appends, the `tool_calls_executed` flag);
- the tenacity retry shell `AsyncRetrying(stop=stop_after_attempt(3),
  wait=wait_fixed(3))` whose `with attempt:` block wraps the whole round
  body, including the recursive continuation;
- the subagent spawner `ToolSpawnSubagent.__call__` and its internal
  `run_subagent` consumer.

External collaborators (the OpenAI client, `json.loads`, concrete tool
classes) are abstracted as parameters: the transport is an oracle giving
each attempt's behavior, JSON parsing is an abstract function
`String → Option α`, and a tool is a name plus a fallible runner.
-/

namespace BabyManus

/-- One `function` fragment of a streamed tool-call delta
(`tool_call_delta.function` in `agent.py`). -/
structure FunctionDelta where
  name : Option String
  arguments : Option String
deriving DecidableEq, Repr

/-- One streamed tool-call increment (`tool_call_delta`): a positional
index, an optional id, and optional function data. -/
structure ToolCallDelta where
  index : Nat
  id : Option String
  function : Option FunctionDelta
deriving DecidableEq, Repr

/-- One streamed response fragment (`chunk.choices[0].delta`): an optional
text increment and a list of tool-call increments. -/
structure Delta where
  content : Option String
  tool_calls : List ToolCallDelta
deriving DecidableEq, Repr

/-- Events yielded by the loop, mirroring `EventText`, `EventInputJson`,
`EventToolUse`, `EventToolResult`.  The tool instance carried by the last
two is modelled by the tool name together with its parsed arguments of
abstract type `α`. -/
inductive AgentEvent (α : Type) where
  | text (s : String)
  | inputJson (s : String)
  | toolUse (name : String) (args : α)
  | toolResult (name : String) (args : α) (result : String)
deriving DecidableEq, Repr

/-- A completed (or in-progress) accumulator entry
(`accumulated_tool_calls[key]`): id, function name and the argument
string assembled by concatenation. -/
structure ToolCallAcc where
  id : String
  name : String
  arguments : String
deriving DecidableEq, Repr

/-- Conversation messages as appended by the loop: user/system messages,
the assistant message carrying the round text plus one tool call
(`role: assistant, content, tool_calls=[tool_call]`), and the tool-result
message (`role: tool, tool_call_id, content`). -/
inductive Message where
  | user (content : String)
  | system (content : String)
  | assistantCall (content : String) (call : ToolCallAcc)
  | tool (tool_call_id : String) (content : String)
deriving DecidableEq, Repr

/-- Python truthiness of an optional string: `None` and `""` are falsy. -/
def truthy (o : Option String) : Bool :=
  match o with
  | some s => s ≠ ""
  | none => false

/-- Python `x or d` for an optional string `x`: the string when truthy,
otherwise the default. -/
def pyOr (o : Option String) (d : String) : String :=
  match o with
  | some s => if s = "" then d else s
  | none => d

/-- State of the streaming phase: `accumulated_content` and
`accumulated_tool_calls` as an insertion-ordered association list keyed
by the positional index (the Python dict keyed by `f"index_{index}"`,
which is in bijection with the index). -/
structure StreamState where
  content : String
  calls : List (Nat × ToolCallAcc)
deriving DecidableEq, Repr

/-- Lookup of an accumulator entry by index (Python dict access). -/
def lookupCall (calls : List (Nat × ToolCallAcc)) (i : Nat) : Option ToolCallAcc :=
  (calls.find? (fun p => p.1 = i)).map Prod.snd

/-- Fresh accumulator entry for a new index:
`{"id": tool_call_id or f"call_{index}", "function": {"name": "", "arguments": ""}}`. -/
def initEntry (i : Nat) (id : Option String) : ToolCallAcc :=
  { id := pyOr id ("call_" ++ toString i), name := "", arguments := "" }

/-- Apply one tool-call increment to an entry: overwrite the id if the
increment carries a truthy one, then, if function data is present,
overwrite the name if truthy and append the arguments fragment if
truthy. -/
def updateEntry (e : ToolCallAcc) (tc : ToolCallDelta) : ToolCallAcc :=
  let e1 := if truthy tc.id then { e with id := tc.id.getD "" } else e
  match tc.function with
  | none => e1
  | some f =>
    let e2 := if truthy f.name then { e1 with name := f.name.getD "" } else e1
    if truthy f.arguments then
      { e2 with arguments := e2.arguments ++ f.arguments.getD "" }
    else e2

/-- The entry stored for `tc.index` after processing increment `tc`:
the existing entry if present, else a fresh one, updated by `tc`. -/
def updatedEntry (calls : List (Nat × ToolCallAcc)) (tc : ToolCallDelta) : ToolCallAcc :=
  updateEntry ((lookupCall calls tc.index).getD (initEntry tc.index tc.id)) tc

/-- The accumulator map after processing increment `tc`: existing key
updated in place, new key appended (Python dicts preserve insertion
order). -/
def applyCallsUpdate (calls : List (Nat × ToolCallAcc)) (tc : ToolCallDelta) :
    List (Nat × ToolCallAcc) :=
  if (lookupCall calls tc.index).isSome then
    calls.map (fun p => if p.1 = tc.index then (tc.index, updatedEntry calls tc) else p)
  else calls ++ [(tc.index, updatedEntry calls tc)]

/-- Events yielded while processing one tool-call increment: the code
yields `EventInputJson(accumulated_tool_calls[key]["function"]["arguments"])`
inside the `if tool_call_delta.function:` branch, so an increment with no
function data yields nothing. -/
def tcEvents {α : Type} (calls : List (Nat × ToolCallAcc)) (tc : ToolCallDelta) :
    List (AgentEvent α) :=
  if tc.function.isSome then [AgentEvent.inputJson (updatedEntry calls tc).arguments]
  else []

/-- Process the list of tool-call increments of one fragment in order. -/
def applyTCList {α : Type} (calls : List (Nat × ToolCallAcc)) :
    List ToolCallDelta → List (Nat × ToolCallAcc) × List (AgentEvent α)
  | [] => (calls, [])
  | tc :: tcs =>
    let rest := applyTCList (applyCallsUpdate calls tc) tcs
    (rest.1, tcEvents calls tc ++ rest.2)

/-- Process one fragment: forward a truthy text increment as an
`EventText` and append it to the content buffer, then process the
fragment's tool-call increments. -/
def applyDelta {α : Type} (st : StreamState) (d : Delta) :
    StreamState × List (AgentEvent α) :=
  let c := if truthy d.content then st.content ++ d.content.getD "" else st.content
  let tev : List (AgentEvent α) :=
    if truthy d.content then [AgentEvent.text (d.content.getD "")] else []
  let rest := applyTCList (α := α) st.calls d.tool_calls
  (⟨c, rest.1⟩, tev ++ rest.2)

/-- Drive the stream from a given state to exhaustion (the
`for chunk in stream` loop). -/
def processStreamFrom {α : Type} (st : StreamState) :
    List Delta → StreamState × List (AgentEvent α)
  | [] => (st, [])
  | d :: ds =>
    let step := applyDelta (α := α) st d
    let rest := processStreamFrom step.1 ds
    (rest.1, step.2 ++ rest.2)

/-- Full streaming phase from the initial empty state
(`accumulated_content = ""`, `accumulated_tool_calls = {}`). -/
def processStream {α : Type} (ds : List Delta) : StreamState × List (AgentEvent α) :=
  processStreamFrom ⟨"", []⟩ ds

/-- The error text yielded when the OpenAI client is unconfigured. -/
def noKeyText : String :=
  "Error: OpenAI API key not configured. Please set OPENAI_API_KEY environment variable."

/-- A tool as seen by the loop: a class name and a fallible runner taking
the parsed arguments.  Construction of the pydantic instance and its
`__call__` are combined; `Except.error` models a raised exception. -/
structure ToolE (α : Type) where
  name : String
  run : α → Except String String

/-- Registry lookup: the code scans `self.tools` in order and takes the
first class whose `__name__` equals the call's name. -/
def findTool {α : Type} (tools : List (ToolE α)) (name : String) : Option (ToolE α) :=
  tools.find? (fun t => t.name = name)

/-- The error text yielded on a JSON parse failure
(`f"Error: Failed to parse tool arguments as JSON: ..."`); the
Python-exception detail interpolated from `json.JSONDecodeError` is
abstracted away, the malformed argument string is kept. -/
def parseErrText (args : String) : String :=
  "Error: Failed to parse tool arguments as JSON. Arguments: " ++ args

/-- Result of the dispatch phase of one round: yielded events, messages
appended to `self.messages`, the `tool_calls_executed` flag, and an
optional uncaught exception from tool construction or execution. -/
structure DispatchOut (α : Type) where
  events : List (AgentEvent α)
  msgs : List Message
  executed : Bool
  err : Option String
deriving DecidableEq, Repr

/-- Dispatch phase (`for tool_call in accumulated_tool_calls.values()`):
parse each entry's arguments (on failure yield an error text event,
discard the remaining entries and stop), look the name up in the tool
list (no match: silently continue), on a match yield `EventToolUse`, run
the tool (an exception escapes uncaught), yield `EventToolResult`, append
the assistant-call and tool-result messages and set the executed flag. -/
def dispatchCalls {α : Type} (parse : String → Option α) (tools : List (ToolE α))
    (content : String) : List ToolCallAcc → Bool → DispatchOut α
  | [], ex => ⟨[], [], ex, none⟩
  | c :: rest, ex =>
    match parse c.arguments with
    | none => ⟨[AgentEvent.text (parseErrText c.arguments)], [], ex, none⟩
    | some args =>
      match findTool tools c.name with
      | none => dispatchCalls parse tools content rest ex
      | some t =>
        match t.run args with
        | Except.error e => ⟨[AgentEvent.toolUse c.name args], [], ex, some e⟩
        | Except.ok r =>
          let out := dispatchCalls parse tools content rest true
          ⟨AgentEvent.toolUse c.name args :: AgentEvent.toolResult c.name args r :: out.events,
           Message.assistantCall content c :: Message.tool c.id r :: out.msgs,
           out.executed, out.err⟩

/-- Behavior of the transport on one attempt: either raise after having
yielded a prefix of the fragment stream (a failure at request issuance
is `fail [] e`), or deliver the whole stream. -/
inductive TransportBehavior where
  | fail (yielded : List Delta) (err : String)
  | succeed (deltas : List Delta)

/-- Observable outcome of one (possibly recursive) loop invocation:
events yielded to the caller, the final `self.messages`, an uncaught
exception if one escaped, and the sleeps performed by the retry shell. -/
structure LoopRes (α : Type) where
  events : List (AgentEvent α)
  msgs : List Message
  err : Option String
  waits : List Nat
deriving DecidableEq, Repr

/-- Retry bound from `stop_after_attempt(3)`. -/
def stopAfterAttempt : Nat := 3

/-- Sleep between attempts from `wait_fixed(3)`. -/
def waitFixed : Nat := 3

/-- One pass through the body of the `with attempt:` block, given the
transport's behavior for this attempt.  On transport failure the events
already yielded from the partial stream remain visible to the caller
(the loop is a generator) and the exception escapes the block.  On a
delivered stream the dispatch phase runs, and if the executed flag is
set the loop recurses via `recur` with the extended message list. -/
def attemptOnce {α : Type} (parse : String → Option α) (tools : List (ToolE α))
    (tb : TransportBehavior) (msgs : List Message)
    (recur : List Message → LoopRes α) : LoopRes α :=
  match tb with
  | TransportBehavior.fail ds e => ⟨(processStream (α := α) ds).2, msgs, some e, []⟩
  | TransportBehavior.succeed ds =>
    let sr := processStream (α := α) ds
    let dr := dispatchCalls parse tools sr.1.content (sr.1.calls.map Prod.snd) false
    let msgs1 := msgs ++ dr.msgs
    match dr.err with
    | some e => ⟨sr.2 ++ dr.events, msgs1, some e, []⟩
    | none =>
      if dr.executed then
        let r := recur msgs1
        ⟨sr.2 ++ dr.events ++ r.events, r.msgs, r.err, r.waits⟩
      else ⟨sr.2 ++ dr.events, msgs1, none, []⟩

/-- The tenacity driver `async for attempt in AsyncRetrying(...)`: run
the body for attempt `a` with `r` attempts remaining; a failed attempt
is followed by a `waitFixed` sleep and a fresh attempt, and after the
last allowed attempt the failure escapes as a `RetryError`.  Events and
message mutations of failed attempts remain visible. -/
def runAttempts {α : Type} (body : Nat → List Message → LoopRes α) :
    Nat → Nat → List Message → LoopRes α
  | _, 0, msgs => ⟨[], msgs, some "RetryError", []⟩
  | a, r + 1, msgs =>
    let res := body a msgs
    match res.err with
    | none => res
    | some _ =>
      if r = 0 then { res with err := some "RetryError" }
      else
        let res2 := runAttempts body (a + 1) r res.msgs
        ⟨res.events ++ res2.events, res2.msgs, res2.err, res.waits ++ waitFixed :: res2.waits⟩

/-- The agentic loop (`Agent.agentic_loop`): if the client is
unconfigured, yield a single error text event and stop; otherwise run
the round body under a fresh retry shell, where the body issues the
request (behavior given by the `oracle` for the current message list and
attempt number), drains the stream, dispatches tool calls and recurses.
`fuel` bounds the recursion depth of the model. -/
def agenticLoop {α : Type} (configured : Bool) (parse : String → Option α)
    (tools : List (ToolE α)) (oracle : List Message → Nat → TransportBehavior) :
    Nat → List Message → LoopRes α
  | 0, msgs =>
    if configured then ⟨[], msgs, some "fuel", []⟩
    else ⟨[AgentEvent.text noKeyText], msgs, none, []⟩
  | fuel + 1, msgs =>
    if configured then
      runAttempts
        (fun a m => attemptOnce parse tools (oracle m a) m
          (agenticLoop configured parse tools oracle fuel))
        1 stopAfterAttempt msgs
    else ⟨[AgentEvent.text noKeyText], msgs, none, []⟩

/-- Acknowledgement string returned by `ToolSpawnSubagent.__call__`:
the task truncated to 100 characters, with an ellipsis when longer. -/
def ackText (task : String) : String :=
  "Subagent started for task: " ++ task.take 100 ++
    (if task.length > 100 then "..." else "") ++
    ". It will run in the background and output will be prefixed with [SUBAGENT]."

/-- Flush of `run_subagent`'s text buffer: printed with the `[SUBAGENT]`
tag when the buffer is non-blank (`if text_buffer.strip():`). -/
def flushBuf (buf : String) : List String :=
  if buf.trim ≠ "" then ["[SUBAGENT] " ++ buf] else []

/-- One step of `run_subagent`'s event consumer over the state
(text buffer, side-channel log so far).  Text events are buffered and
printed line-wise once a newline arrives or the buffer exceeds 100
characters; tool-use and tool-result events flush the buffer and print a
tagged line; `EventInputJson` matches no branch and is ignored. -/
def subStep {α : Type} (st : String × List String) (e : AgentEvent α) :
    String × List String :=
  match e with
  | AgentEvent.text s =>
    let buf := st.1 ++ s
    if buf.contains '\n' || buf.length > 100 then
      let lines := buf.splitOn "\n"
      let printed := (lines.dropLast.filter (fun l => l.trim ≠ "")).map
        (fun l => "[SUBAGENT] " ++ l)
      ((lines.getLast?).getD "", st.2 ++ printed)
    else (buf, st.2)
  | AgentEvent.inputJson _ => st
  | AgentEvent.toolUse n _ =>
    ("", st.2 ++ flushBuf st.1 ++ ["[SUBAGENT TOOL] " ++ n])
  | AgentEvent.toolResult _ _ r =>
    ("", st.2 ++ flushBuf st.1 ++
      ["[SUBAGENT RESULT] " ++ (if r.length > 100 then r.take 100 ++ "..." else r)])

/-- The side-channel log produced by `run_subagent` for a subagent run
that yielded `events` and then either finished (buffer flushed, success
line) or raised (`except Exception as e:` prints the error line; the
trailing flush and success line are skipped). -/
def runSubagentLog {α : Type} (events : List (AgentEvent α)) (err : Option String) :
    List String :=
  let st := events.foldl subStep ("", [])
  match err with
  | some e => st.2 ++ ["[SUBAGENT ERROR] " ++ e]
  | none => st.2 ++ flushBuf st.1 ++ ["[SUBAGENT] Task completed successfully."]

/-- Observable outcome of `ToolSpawnSubagent.__call__` for a given task
and a given subagent run (the events the subagent's loop yields before
finishing or raising): the string returned to the launcher's loop and
the side-channel log printed by the detached `run_subagent` task. -/
def spawnSubagent {α : Type} (task : String) (subEvents : List (AgentEvent α))
    (subErr : Option String) : String × List String :=
  (ackText task, runSubagentLog subEvents subErr)

/-! Specification-side helper functions used to state the claims. -/

/-- Concatenation of a list of strings in order. -/
def concatList : List String → String
  | [] => ""
  | s :: l => s ++ concatList l

/-- The last non-empty string of a list, if any. -/
def lastNE (l : List String) : Option String :=
  (l.filter (fun s => s ≠ "")).getLast?

/-- All tool-call increments of a fragment sequence, in arrival order. -/
def allTCs (ds : List Delta) : List ToolCallDelta :=
  (ds.map Delta.tool_calls).flatten

/-- The tool-call increments of a fragment sequence carrying index `i`,
in arrival order. -/
def tcds (ds : List Delta) (i : Nat) : List ToolCallDelta :=
  (allTCs ds).filter (fun tc => tc.index = i)

/-- The id fragments supplied for index `i`, in arrival order
(including empty ones, which the accumulator ignores). -/
def idFrags (ds : List Delta) (i : Nat) : List String :=
  (tcds ds i).filterMap ToolCallDelta.id

/-- The name fragments supplied for index `i` (function data present),
in arrival order (including empty ones, which the accumulator
ignores). -/
def nameFrags (ds : List Delta) (i : Nat) : List String :=
  (tcds ds i).filterMap (fun tc => tc.function.bind FunctionDelta.name)

/-- The argument fragments supplied for index `i` (function data
present), in arrival order. -/
def argFrags (ds : List Delta) (i : Nat) : List String :=
  (tcds ds i).filterMap (fun tc => tc.function.bind FunctionDelta.arguments)

/-- Whether a completed call has an exact-name match in the tool list. -/
def matchedB {α : Type} (tools : List (ToolE α)) (c : ToolCallAcc) : Bool :=
  (findTool tools c.name).isSome

/-- The messages the dispatch phase appends for one successfully matched
and executed call: the assistant message carrying the round text and
this call, then the tool message tagged with the call's id and the
result. -/
def callOut {α : Type} (parse : String → Option α) (tools : List (ToolE α))
    (content : String) (c : ToolCallAcc) : List Message :=
  match parse c.arguments with
  | none => []
  | some a =>
    match findTool tools c.name with
    | none => []
    | some t =>
      match t.run a with
      | Except.error _ => []
      | Except.ok r => [Message.assistantCall content c, Message.tool c.id r]

/-- Text carried by a `Text` event; empty for the other variants. -/
def eventTextPart {α : Type} : AgentEvent α → String
  | AgentEvent.text s => s
  | AgentEvent.inputJson _ => ""
  | AgentEvent.toolUse _ _ => ""
  | AgentEvent.toolResult _ _ _ => ""

/-! Concrete instances used by witnesses and counterexamples. -/

/-- A concrete argument parser for witnesses: only the string `ok`
parses. -/
def wParse : String → Option Nat := fun s => if s = "ok" then some 0 else none

/-- A concrete succeeding tool named `T`. -/
def wTool : ToolE Nat := ⟨"T", fun _ => Except.ok "res"⟩

/-- A concrete tool named `F` whose execution raises. -/
def wToolFail : ToolE Nat := ⟨"F", fun _ => Except.error "toolboom"⟩

/-- A one-fragment stream carrying two tool calls: index 0 parses and
matches `T`, index 1 carries a malformed argument string. -/
def wDsOkBad : List Delta :=
  [⟨none, [⟨0, some "id0", some ⟨some "T", some "ok"⟩⟩,
           ⟨1, some "id1", some ⟨some "T", some "bad"⟩⟩]⟩]

/-- A one-fragment stream carrying only the text `Hi`. -/
def wDsHi : List Delta := [⟨some "Hi", []⟩]

/-- A one-fragment stream carrying one tool call that matches the
raising tool `F`. -/
def wDsFail : List Delta :=
  [⟨none, [⟨0, some "id0", some ⟨some "F", some "ok"⟩⟩]⟩]

/-! Theorems. -/

/-- C10: with an unconfigured client, every invocation of the loop, for
any conversation state, any fuel and any transport, yields exactly one
error text event, leaves the message history unchanged, attempts no
request (no retry sleeps) and raises nothing. -/
theorem c10_unconfigured {α : Type} (parse : String → Option α) (tools : List (ToolE α))
    (oracle : List Message → Nat → TransportBehavior) (fuel : Nat) (msgs : List Message) :
    agenticLoop false parse tools oracle fuel msgs =
      ⟨[AgentEvent.text noKeyText], msgs, none, []⟩ := by
  cases fuel <;> rfl

/-- C6: a completed call whose name matches no tool in the list is
dropped silently: dispatching it at the head of the pending entries is
identical to dispatching the remaining entries alone, so no event, no
tool invocation and no message is produced for it. -/
theorem c6_unmatched_dropped {α : Type} (parse : String → Option α)
    (tools : List (ToolE α)) (content : String) (c : ToolCallAcc)
    (rest : List ToolCallAcc) (ex : Bool) (a : α)
    (h1 : parse c.arguments = some a) (h2 : findTool tools c.name = none) :
    dispatchCalls parse tools content (c :: rest) ex =
      dispatchCalls parse tools content rest ex := by
  simp only [dispatchCalls, h1, h2]

/-- Witness for C6: a call named `X` with well-formed arguments and no
matching tool is dispatched exactly as if it were absent. -/
theorem c6_witness :
    dispatchCalls wParse [wTool] "" [⟨"id9", "X", "ok"⟩] false =
      dispatchCalls wParse [wTool] "" [] false :=
  c6_unmatched_dropped wParse [wTool] "" ⟨"id9", "X", "ok"⟩ [] false 0 (by decide) rfl

/-- Round outcome for the C1 scenario: a round whose first entry parses,
matches and executes, and whose second entry carries malformed
arguments, run against a recursion stub that records a marker event and
message when the loop recurses. -/
def c1run : LoopRes Nat :=
  attemptOnce wParse [wTool] (TransportBehavior.succeed wDsOkBad) []
    (fun m => ⟨[AgentEvent.text "recursion-started"],
               m ++ [Message.user "recursion-marker"], none, []⟩)

/-- C1 fails on the code: in a round whose second entry's arguments fail
to parse after the first entry was executed, the loop has already
invoked one tool, has appended its two messages, and still starts a
recursive round; only the entries from the failing one onward are
discarded. -/
theorem c1_counterexample :
    c1run =
      ⟨[AgentEvent.inputJson "ok", AgentEvent.inputJson "bad",
        AgentEvent.toolUse "T" 0, AgentEvent.toolResult "T" 0 "res",
        AgentEvent.text (parseErrText "bad"), AgentEvent.text "recursion-started"],
       [Message.assistantCall "" ⟨"id0", "T", "ok"⟩, Message.tool "id0" "res",
        Message.user "recursion-marker"],
       none, []⟩
    ∧ AgentEvent.toolUse "T" 0 ∈ c1run.events
    ∧ c1run.msgs ≠ [] := by
  refine ⟨rfl, ?_, ?_⟩ <;> decide

/-- C1 as amended: when a pending entry's arguments fail to parse, the
loop yields one error text event naming the malformed payload, invokes
no tool for the failing entry or any later entry, appends no messages
for them, discards them all and leaves the executed flag as the earlier
entries set it (so the round recurses exactly when an earlier entry was
executed); in particular, when the failing entry is the first of the
round, zero tools are invoked, no messages are appended and no recursive
round starts. -/
theorem c1_amended {α : Type} (parse : String → Option α) (tools : List (ToolE α))
    (bad : ToolCallAcc) (rest : List ToolCallAcc)
    (hbad : parse bad.arguments = none) :
    (∀ (content : String) (ex : Bool),
      dispatchCalls parse tools content (bad :: rest) ex =
        ⟨[AgentEvent.text (parseErrText bad.arguments)], [], ex, none⟩)
    ∧ ∀ (ds : List Delta) (msgs : List Message) (recur : List Message → LoopRes α),
        (processStream (α := α) ds).1.calls.map Prod.snd = bad :: rest →
        attemptOnce parse tools (TransportBehavior.succeed ds) msgs recur =
          ⟨(processStream (α := α) ds).2 ++ [AgentEvent.text (parseErrText bad.arguments)],
           msgs, none, []⟩ := by
  have h1 : ∀ (content : String) (ex : Bool),
      dispatchCalls parse tools content (bad :: rest) ex =
        ⟨[AgentEvent.text (parseErrText bad.arguments)], [], ex, none⟩ := by
    intro content ex
    simp only [dispatchCalls, hbad]
  refine ⟨h1, fun ds msgs recur hcalls => ?_⟩
  simp only [attemptOnce, hcalls, h1]
  simp

/-- Witness for C1 as amended: a round whose single entry is malformed
produces only the parse-error event, no messages and no recursion. -/
theorem c1_amended_witness :
    dispatchCalls wParse [wTool] "" [(⟨"id1", "T", "bad"⟩ : ToolCallAcc)] false =
      ⟨[AgentEvent.text (parseErrText "bad")], [], false, none⟩ :=
  (c1_amended wParse [wTool] ⟨"id1", "T", "bad"⟩ [] (by decide)).1 "" false

/-- Processing a stream of text-only fragments appends the truthy text
increments to the content buffer and forwards each truthy increment as
its own `Text` event, in order. -/
theorem psf_textOnly {α : Type} (ds : List Delta) (h : ∀ d ∈ ds, d.tool_calls = []) :
    ∀ st : StreamState,
      processStreamFrom (α := α) st ds =
        (⟨st.content ++ concatList (ds.filterMap Delta.content), st.calls⟩,
         ((ds.filterMap Delta.content).filter (fun s => s ≠ "")).map AgentEvent.text) := by
  induction ds with
  | nil => intro st; simp [processStreamFrom, concatList, String.append_empty]
  | cons d ds ih =>
    intro st
    have hd : d.tool_calls = [] := h d (List.mem_cons_self d ds)
    have hds : ∀ d' ∈ ds, d'.tool_calls = [] := fun d' hmem => h d' (List.mem_cons_of_mem d hmem)
    simp only [processStreamFrom, applyDelta, hd, applyTCList, ih hds]
    cases hc : d.content with
    | none =>
      simp [truthy, hc, List.filterMap_cons, concatList]
    | some s =>
      by_cases hs : s = ""
      · subst hs
        simp [truthy, hc, List.filterMap_cons, concatList, String.empty_append]
      · simp [truthy, hc, hs, List.filterMap_cons, concatList, String.append_assoc]

/-- C5: for a fragment sequence carrying only text increments (no
tool-call increments, and every increment an actual string), the emitted
events are exactly one `Text` event per increment in arrival order, the
concatenation of the emitted texts equals the concatenation of the
increments, and the content buffer accumulates the same string. -/
theorem c5_text_events {α : Type} (ds : List Delta)
    (h1 : ∀ d ∈ ds, d.tool_calls = [])
    (h2 : ∀ d ∈ ds, d.content ≠ some "") :
    (processStream (α := α) ds).2 = (ds.filterMap Delta.content).map AgentEvent.text
    ∧ concatList ((processStream (α := α) ds).2.map eventTextPart) =
        concatList (ds.filterMap Delta.content)
    ∧ (processStream (α := α) ds).1.content = concatList (ds.filterMap Delta.content) := by
  have hfil : (ds.filterMap Delta.content).filter (fun s => s ≠ "") =
      ds.filterMap Delta.content := by
    rw [List.filter_eq_self]
    intro s hs
    rcases List.mem_filterMap.mp hs with ⟨d, hd, hc⟩
    have := h2 d hd
    simp only [ne_eq, decide_eq_true_eq]
    intro he
    exact this (he ▸ hc)
  have hmain := psf_textOnly (α := α) ds h1 ⟨"", []⟩
  rw [show processStream (α := α) ds = processStreamFrom ⟨"", []⟩ ds from rfl, hmain, hfil]
  refine ⟨rfl, ?_, String.empty_append _⟩
  rw [List.map_map]
  have : (eventTextPart (α := α)) ∘ AgentEvent.text = id := by
    funext s; rfl
  rw [this, List.map_id]

/-- Witness for C5: the fragments `Hello`, ` world` yield the events
`Text Hello`, `Text world` and the buffer `Hello world`. -/
theorem c5_witness :
    (processStream (α := Nat) [⟨some "Hello", []⟩, ⟨some " world", []⟩]).2 =
      ([⟨some "Hello", []⟩, ⟨some " world", []⟩].filterMap Delta.content).map AgentEvent.text
    ∧ concatList ((processStream (α := Nat) [⟨some "Hello", []⟩, ⟨some " world", []⟩]).2.map
        eventTextPart) =
        concatList ([⟨some "Hello", []⟩, ⟨some " world", []⟩].filterMap Delta.content)
    ∧ (processStream (α := Nat) [⟨some "Hello", []⟩, ⟨some " world", []⟩]).1.content =
        concatList ([⟨some "Hello", []⟩, ⟨some " world", []⟩].filterMap Delta.content) :=
  c5_text_events [⟨some "Hello", []⟩, ⟨some " world", []⟩] (by decide) (by decide)

/-- When every entry of a round parses and every matched tool runs
successfully, the dispatch phase appends per entry exactly the messages
`callOut` describes, raises nothing, and sets the executed flag exactly
when some entry is matched. -/
theorem dispatch_ok_comp {α : Type} (parse : String → Option α) (tools : List (ToolE α))
    (content : String) (calls : List ToolCallAcc)
    (hok : ∀ c ∈ calls, ∃ a, parse c.arguments = some a ∧
      ∀ t, findTool tools c.name = some t → ∃ r, t.run a = Except.ok r) :
    ∀ ex : Bool,
      (dispatchCalls parse tools content calls ex).msgs =
        (calls.map (callOut parse tools content)).flatten
      ∧ (dispatchCalls parse tools content calls ex).executed =
          (ex || !(calls.filter (fun c => matchedB tools c)).isEmpty)
      ∧ (dispatchCalls parse tools content calls ex).err = none := by
  induction calls with
  | nil => intro ex; simp [dispatchCalls]
  | cons c rest ih =>
    intro ex
    obtain ⟨a, pa, hr⟩ := hok c (List.mem_cons_self c rest)
    have hok' : ∀ c' ∈ rest, ∃ a, parse c'.arguments = some a ∧
        ∀ t, findTool tools c'.name = some t → ∃ r, t.run a = Except.ok r :=
      fun c' hmem => hok c' (List.mem_cons_of_mem c hmem)
    have ihr := ih hok'
    cases hft : findTool tools c.name with
    | none =>
      have hco : callOut parse tools content c = [] := by
        simp [callOut, pa, hft]
      have hmb : matchedB tools c = false := by
        simp [matchedB, hft]
      simp only [dispatchCalls, pa, hft, List.map_cons, List.flatten_cons, hco,
        List.nil_append, List.filter_cons, hmb]
      exact ihr ex
    | some t =>
      obtain ⟨r, hrun⟩ := hr t hft
      have hco : callOut parse tools content c =
          [Message.assistantCall content c, Message.tool c.id r] := by
        simp [callOut, pa, hft, hrun]
      have hmb : matchedB tools c = true := by
        simp [matchedB, hft]
      obtain ⟨ihm, ihe, ihn⟩ := ih hok' true
      simp only [dispatchCalls, pa, hft, hrun, List.map_cons, List.flatten_cons, hco,
        List.filter_cons, hmb, if_true]
      refine ⟨by rw [ihm]; rfl, ?_, ihn⟩
      rw [ihe]
      simp

/-- Under the same hypotheses, the total number of appended messages is
twice the number of matched entries. -/
theorem dispatch_ok_len {α : Type} (parse : String → Option α) (tools : List (ToolE α))
    (content : String) (calls : List ToolCallAcc)
    (hok : ∀ c ∈ calls, ∃ a, parse c.arguments = some a ∧
      ∀ t, findTool tools c.name = some t → ∃ r, t.run a = Except.ok r) :
    ((calls.map (callOut parse tools content)).flatten).length =
      2 * (calls.filter (fun c => matchedB tools c)).length := by
  induction calls with
  | nil => simp
  | cons c rest ih =>
    obtain ⟨a, pa, hr⟩ := hok c (List.mem_cons_self c rest)
    have hok' : ∀ c' ∈ rest, ∃ a, parse c'.arguments = some a ∧
        ∀ t, findTool tools c'.name = some t → ∃ r, t.run a = Except.ok r :=
      fun c' hmem => hok c' (List.mem_cons_of_mem c hmem)
    cases hft : findTool tools c.name with
    | none =>
      have hco : callOut parse tools content c = [] := by simp [callOut, pa, hft]
      have hmb : matchedB tools c = false := by simp [matchedB, hft]
      simp only [List.map_cons, List.flatten_cons, hco, List.nil_append,
        List.filter_cons, hmb, if_false]
      exact ih hok'
    | some t =>
      obtain ⟨r, hrun⟩ := hr t hft
      have hco : callOut parse tools content c =
          [Message.assistantCall content c, Message.tool c.id r] := by
        simp [callOut, pa, hft, hrun]
      have hmb : matchedB tools c = true := by simp [matchedB, hft]
      simp only [List.map_cons, List.flatten_cons, hco, List.filter_cons, hmb, if_true,
        List.length_append, List.length_cons, List.length_nil, ih hok']
      ring

/-- C3: in a round where every entry parses and every matched tool call
executes successfully, the dispatch appends exactly two messages per
matched call — the assistant message carrying the round's accumulated
text and that call, then the tool message with that call's id and result
— for a total of `2k` messages, and the round then performs exactly one
recursive invocation when `k ≥ 1` and terminates when `k = 0`. -/
theorem c3_messages_and_recursion {α : Type} (parse : String → Option α)
    (tools : List (ToolE α)) (content : String) (calls : List ToolCallAcc)
    (hok : ∀ c ∈ calls, ∃ a, parse c.arguments = some a ∧
      ∀ t, findTool tools c.name = some t → ∃ r, t.run a = Except.ok r) :
    (dispatchCalls parse tools content calls false).msgs =
      (calls.map (callOut parse tools content)).flatten
    ∧ (dispatchCalls parse tools content calls false).msgs.length =
        2 * (calls.filter (fun c => matchedB tools c)).length
    ∧ (dispatchCalls parse tools content calls false).err = none
    ∧ (dispatchCalls parse tools content calls false).executed =
        !(calls.filter (fun c => matchedB tools c)).isEmpty
    ∧ ∀ (ds : List Delta) (msgs : List Message) (recur : List Message → LoopRes α),
        (processStream (α := α) ds).1.calls.map Prod.snd = calls →
        (processStream (α := α) ds).1.content = content →
        attemptOnce parse tools (TransportBehavior.succeed ds) msgs recur =
          (if (calls.filter (fun c => matchedB tools c)).isEmpty then
            ⟨(processStream (α := α) ds).2 ++
               (dispatchCalls parse tools content calls false).events,
             msgs ++ (dispatchCalls parse tools content calls false).msgs, none, []⟩
          else
            ⟨(processStream (α := α) ds).2 ++
               (dispatchCalls parse tools content calls false).events ++
               (recur (msgs ++ (dispatchCalls parse tools content calls false).msgs)).events,
             (recur (msgs ++ (dispatchCalls parse tools content calls false).msgs)).msgs,
             (recur (msgs ++ (dispatchCalls parse tools content calls false).msgs)).err,
             (recur (msgs ++ (dispatchCalls parse tools content calls false).msgs)).waits⟩) := by
  obtain ⟨hm, he, hn⟩ := dispatch_ok_comp parse tools content calls hok false
  refine ⟨hm, by rw [hm]; exact dispatch_ok_len parse tools content calls hok, hn, ?_, ?_⟩
  · rw [he]; simp
  · intro ds msgs recur hcalls hcontent
    simp only [attemptOnce, hcalls, hcontent, hn, he]
    by_cases hemp : (calls.filter (fun c => matchedB tools c)).isEmpty
    · simp [hemp]
    · simp [hemp]

/-- Witness for C3: a round with a single matched call appends exactly
two messages. -/
theorem c3_witness :
    (dispatchCalls wParse [wTool] "ctx" [(⟨"id0", "T", "ok"⟩ : ToolCallAcc)] false).msgs.length =
      2 * ([(⟨"id0", "T", "ok"⟩ : ToolCallAcc)].filter (fun c => matchedB [wTool] c)).length :=
  (c3_messages_and_recursion wParse [wTool] "ctx" [⟨"id0", "T", "ok"⟩]
    (by
      intro c hc
      rw [List.mem_singleton] at hc
      subst hc
      refine ⟨0, rfl, fun t ht => ?_⟩
      have hw : wTool = t := by
        have : some wTool = some t := by simpa [findTool, wTool] using ht
        exact Option.some_injective _ this
      subst hw
      exact ⟨"res", rfl⟩)).2.1

/-- C2 fails on the code in two ways.  First, a transport that fails on
every attempt makes the loop raise a `RetryError` after exactly 3
attempts (two `waitFixed` sleeps) with no terminal error text event —
the events list is empty, nothing is surfaced to the caller.  Second,
the retry scope is not limited to issuing the request and draining the
stream: a tool whose execution raises makes the whole round retry, so
the request is re-issued and the stream re-drained three times, tripling
the observed events before the `RetryError` escapes. -/
theorem c2_counterexample :
    (agenticLoop (α := Nat) true wParse [] (fun _ _ => TransportBehavior.fail [] "boom") 1 [] =
      ⟨[], [], some "RetryError", [3, 3]⟩)
    ∧ (∀ s, AgentEvent.text s ∉
        (agenticLoop (α := Nat) true wParse [] (fun _ _ => TransportBehavior.fail [] "boom")
          1 []).events)
    ∧ agenticLoop (α := Nat) true wParse [wToolFail]
        (fun _ _ => TransportBehavior.succeed wDsFail) 1 [] =
      ⟨[AgentEvent.inputJson "ok", AgentEvent.toolUse "F" 0,
        AgentEvent.inputJson "ok", AgentEvent.toolUse "F" 0,
        AgentEvent.inputJson "ok", AgentEvent.toolUse "F" 0],
       [], some "RetryError", [3, 3]⟩ := by
  refine ⟨rfl, ?_, rfl⟩
  intro s h
  rw [show (agenticLoop (α := Nat) true wParse [] (fun _ _ => TransportBehavior.fail [] "boom")
      1 []).events = [] from rfl] at h
  exact List.not_mem_nil _ h

/-- C2 as amended: per round the body is attempted at most 3 times with
a fixed sleep of 3 time units between attempts; the retried body is the
whole round — request, stream drain, dispatch and recursive
continuation — and when all 3 attempts fail, a `RetryError` escapes to
the caller with no terminal error text event, while events and message
writes of the failed attempts stay visible.  The theorem characterizes
one round completely in terms of the three possible attempts. -/
theorem c2_retry_characterization {α : Type} (parse : String → Option α)
    (tools : List (ToolE α)) (oracle : List Message → Nat → TransportBehavior)
    (fuel : Nat) (msgs : List Message) :
    agenticLoop true parse tools oracle (fuel + 1) msgs =
      (let body := fun (a : Nat) (m : List Message) =>
         attemptOnce parse tools (oracle m a) m (agenticLoop true parse tools oracle fuel)
       let r1 := body 1 msgs
       if r1.err = none then r1
       else
         let r2 := body 2 r1.msgs
         if r2.err = none then
           ⟨r1.events ++ r2.events, r2.msgs, none, r1.waits ++ waitFixed :: r2.waits⟩
         else
           let r3 := body 3 r2.msgs
           if r3.err = none then
             ⟨r1.events ++ (r2.events ++ r3.events), r3.msgs, none,
              r1.waits ++ waitFixed :: (r2.waits ++ waitFixed :: r3.waits)⟩
           else
             ⟨r1.events ++ (r2.events ++ r3.events), r3.msgs, some "RetryError",
              r1.waits ++ waitFixed :: (r2.waits ++ waitFixed :: r3.waits)⟩) := by
  simp only [agenticLoop, stopAfterAttempt, if_true]
  simp only [runAttempts]
  cases h1 : (attemptOnce parse tools (oracle msgs 1) msgs
      (agenticLoop true parse tools oracle fuel)).err with
  | none => simp [h1]
  | some e1 =>
    simp only [h1, Option.some_ne_none, if_false, reduceIte]
    cases h2 : (attemptOnce parse tools
        (oracle (attemptOnce parse tools (oracle msgs 1) msgs
          (agenticLoop true parse tools oracle fuel)).msgs 2)
        (attemptOnce parse tools (oracle msgs 1) msgs
          (agenticLoop true parse tools oracle fuel)).msgs
        (agenticLoop true parse tools oracle fuel)).err with
    | none => simp [h2]
    | some e2 =>
      simp only [h2, reduceIte]
      cases h3 : (attemptOnce parse tools
          (oracle (attemptOnce parse tools
            (oracle (attemptOnce parse tools (oracle msgs 1) msgs
              (agenticLoop true parse tools oracle fuel)).msgs 2)
            (attemptOnce parse tools (oracle msgs 1) msgs
              (agenticLoop true parse tools oracle fuel)).msgs
            (agenticLoop true parse tools oracle fuel)).msgs 3)
          (attemptOnce parse tools
            (oracle (attemptOnce parse tools (oracle msgs 1) msgs
              (agenticLoop true parse tools oracle fuel)).msgs 2)
            (attemptOnce parse tools (oracle msgs 1) msgs
              (agenticLoop true parse tools oracle fuel)).msgs
            (agenticLoop true parse tools oracle fuel)).msgs
          (agenticLoop true parse tools oracle fuel)).err with
      | none => simp [h3]
      | some e3 => simp [h3]

/-- Lookup in a cons cell of the accumulator association list. -/
theorem lookupCall_cons (p : Nat × ToolCallAcc) (l : List (Nat × ToolCallAcc)) (i : Nat) :
    lookupCall (p :: l) i = if p.1 = i then some p.2 else lookupCall l i := by
  by_cases h : p.1 = i
  · simp [lookupCall, List.find?_cons_of_pos, h]
  · simp [lookupCall, List.find?_cons_of_neg, h]

/-- Replacing every entry keyed `j` by `(j, e)` changes only key `j`'s
lookup, and only when it was present. -/
theorem lookup_map_replace (calls : List (Nat × ToolCallAcc)) (j : Nat) (e : ToolCallAcc)
    (i : Nat) :
    lookupCall (calls.map (fun p => if p.1 = j then (j, e) else p)) i =
      if j = i then (lookupCall calls i).map (fun _ => e) else lookupCall calls i := by
  induction calls with
  | nil => simp [lookupCall]
  | cons p cs ih =>
    simp only [List.map_cons]
    by_cases hpj : p.1 = j
    · rw [if_pos hpj, lookupCall_cons, lookupCall_cons]
      by_cases hji : j = i
      · have h1 : ((j, e) : Nat × ToolCallAcc).1 = i := hji
        have h2 : p.1 = i := hpj.trans hji
        rw [if_pos h1, if_pos h2, if_pos hji]
        simp
      · have h1 : ((j, e) : Nat × ToolCallAcc).1 ≠ i := hji
        have h2 : p.1 ≠ i := fun h => hji (hpj.symm.trans h)
        rw [if_neg h1, if_neg h2, if_neg hji, ih, if_neg hji]
    · rw [if_neg hpj, lookupCall_cons, lookupCall_cons]
      by_cases hpi : p.1 = i
      · have hji : j ≠ i := fun h => hpj (hpi.trans h.symm)
        rw [if_pos hpi, if_pos hpi, if_neg hji]
      · rw [if_neg hpi, if_neg hpi, ih]

/-- Lookup across an append of accumulator lists. -/
theorem lookupCall_append (l1 l2 : List (Nat × ToolCallAcc)) (i : Nat) :
    lookupCall (l1 ++ l2) i = (lookupCall l1 i).or (lookupCall l2 i) := by
  unfold lookupCall
  rw [List.find?_append]
  cases List.find? (fun p => decide (p.1 = i)) l1 <;> simp

/-- Processing one tool-call increment updates exactly its own index:
afterwards that index holds the updated entry, every other index is
untouched. -/
theorem lookup_applyCallsUpdate (calls : List (Nat × ToolCallAcc)) (tc : ToolCallDelta)
    (i : Nat) :
    lookupCall (applyCallsUpdate calls tc) i =
      if tc.index = i then some (updatedEntry calls tc) else lookupCall calls i := by
  unfold applyCallsUpdate
  by_cases hs : (lookupCall calls tc.index).isSome
  · rw [if_pos hs, lookup_map_replace]
    by_cases hji : tc.index = i
    · subst hji
      obtain ⟨x, hx⟩ := Option.isSome_iff_exists.mp hs
      simp [hx]
    · simp [hji]
  · rw [if_neg hs, lookupCall_append]
    have hnone : lookupCall calls tc.index = none := Option.not_isSome_iff_eq_none.mp hs
    by_cases hji : tc.index = i
    · have h0 : lookupCall calls i = none := by rw [← hji]; exact hnone
      rw [h0, lookupCall_cons]
      have h1 : ((tc.index, updatedEntry calls tc) : Nat × ToolCallAcc).1 = i := hji
      rw [if_pos h1, if_pos hji]
      rfl
    · rw [lookupCall_cons]
      have h1 : ((tc.index, updatedEntry calls tc) : Nat × ToolCallAcc).1 ≠ i := hji
      rw [if_neg h1, if_neg hji]
      show (lookupCall calls i).or (lookupCall [] i) = lookupCall calls i
      cases lookupCall calls i <;> rfl

/-- Stream processing splits across list append: the second part starts
from the first part's final state, and events concatenate. -/
theorem processStreamFrom_append {α : Type} (st : StreamState) (l1 l2 : List Delta) :
    processStreamFrom (α := α) st (l1 ++ l2) =
      ((processStreamFrom (α := α) (processStreamFrom (α := α) st l1).1 l2).1,
       (processStreamFrom (α := α) st l1).2 ++
         (processStreamFrom (α := α) (processStreamFrom (α := α) st l1).1 l2).2) := by
  induction l1 generalizing st with
  | nil => simp [processStreamFrom]
  | cons d l1 ih =>
    simp only [List.cons_append, processStreamFrom, List.append_eq]
    rw [ih]
    simp [List.append_assoc]

/-- C8 fails on the code: an increment carrying only an id and no
function data updates the accumulator (the entry is created with the
supplied id) but emits no event at all, because the
`EventInputJson` yield sits inside the `if tool_call_delta.function:`
branch. -/
theorem c8_counterexample :
    (processStream (α := Nat) [⟨none, [⟨0, some "call_1", none⟩]⟩]).2 = []
    ∧ lookupCall (processStream (α := Nat) [⟨none, [⟨0, some "call_1", none⟩]⟩]).1.calls 0 =
        some ⟨"call_1", "", ""⟩ := ⟨rfl, rfl⟩

/-- C8 as amended: an indexed tool-call increment carrying function data
is followed, after the accumulator update, by exactly one
`PartialArguments` event carrying the arguments accumulated so far for
that index; an increment without function data (for example one carrying
only an id) updates the accumulator but emits no event. -/
theorem c8_partial_args {α : Type} (ds : List Delta) (tc : ToolCallDelta) :
    (processStream (α := α) (ds ++ [⟨none, [tc]⟩])).2 =
      (processStream (α := α) ds).2 ++
        (if tc.function.isSome then
          [AgentEvent.inputJson
            (((lookupCall (processStream (α := α) (ds ++ [⟨none, [tc]⟩])).1.calls
                tc.index).getD ⟨"", "", ""⟩).arguments)]
        else []) := by
  rw [show processStream (α := α) (ds ++ [⟨none, [tc]⟩]) =
      processStreamFrom ⟨"", []⟩ (ds ++ [⟨none, [tc]⟩]) from rfl,
    processStreamFrom_append]
  have hsingle : ∀ st : StreamState,
      processStreamFrom (α := α) st [⟨none, [tc]⟩] =
        (⟨st.content, applyCallsUpdate st.calls tc⟩, tcEvents st.calls tc) := by
    intro st
    simp [processStreamFrom, applyDelta, applyTCList, truthy]
  rw [hsingle]
  have hlook : lookupCall (applyCallsUpdate
      (processStreamFrom (α := α) ⟨"", []⟩ ds).1.calls tc) tc.index =
      some (updatedEntry (processStreamFrom (α := α) ⟨"", []⟩ ds).1.calls tc) := by
    rw [lookup_applyCallsUpdate]
    simp
  simp only [hlook, tcEvents, Option.getD_some]
  rfl

/-- Evolution of one index's accumulator entry under its own increment
sequence, starting from an absent entry: the first increment creates the
entry, later ones update it. -/
def stepListOpt (o : Option ToolCallAcc) : List ToolCallDelta → Option ToolCallAcc
  | [] => o
  | tc :: l => stepListOpt (some (updateEntry (o.getD (initEntry tc.index tc.id)) tc)) l

/-- Evolution of one index's existing entry under its own increments. -/
def entrySteps (e : ToolCallAcc) : List ToolCallDelta → ToolCallAcc
  | [] => e
  | tc :: l => entrySteps (updateEntry e tc) l

theorem stepListOpt_some (e : ToolCallAcc) (l : List ToolCallDelta) :
    stepListOpt (some e) l = some (entrySteps e l) := by
  induction l generalizing e with
  | nil => rfl
  | cons tc l ih => simp [stepListOpt, entrySteps, ih]

theorem stepListOpt_append (o : Option ToolCallAcc) (l1 l2 : List ToolCallDelta) :
    stepListOpt o (l1 ++ l2) = stepListOpt (stepListOpt o l1) l2 := by
  induction l1 generalizing o with
  | nil => rfl
  | cons tc l1 ih => simp [stepListOpt, ih]

theorem updateEntry_arguments (e : ToolCallAcc) (tc : ToolCallDelta) :
    (updateEntry e tc).arguments =
      e.arguments ++ ((tc.function.bind FunctionDelta.arguments).getD "") := by
  cases hf : tc.function with
  | none =>
    simp [updateEntry, hf, apply_ite (fun r : ToolCallAcc => r.arguments), ite_self,
      String.append_empty]
  | some f =>
    cases ha : f.arguments with
    | none =>
      simp [updateEntry, hf, ha, truthy, apply_ite (fun r : ToolCallAcc => r.arguments),
        ite_self, String.append_empty]
    | some t =>
      by_cases ht : t = "" <;>
        simp [updateEntry, hf, ha, ht, truthy, apply_ite (fun r : ToolCallAcc => r.arguments),
          ite_self, String.append_empty]

theorem updateEntry_id (e : ToolCallAcc) (tc : ToolCallDelta) :
    (updateEntry e tc).id = pyOr tc.id e.id := by
  cases hi : tc.id with
  | none =>
    cases hf : tc.function with
    | none =>
      simp [updateEntry, hi, hf, truthy, pyOr, apply_ite (fun r : ToolCallAcc => r.id), ite_self]
    | some f =>
      simp [updateEntry, hi, hf, truthy, pyOr, apply_ite (fun r : ToolCallAcc => r.id), ite_self]
  | some s =>
    by_cases hs : s = "" <;>
      cases hf : tc.function with
      | none =>
        simp [updateEntry, hi, hf, truthy, pyOr, hs,
          apply_ite (fun r : ToolCallAcc => r.id), ite_self]
      | some f =>
        simp [updateEntry, hi, hf, truthy, pyOr, hs,
          apply_ite (fun r : ToolCallAcc => r.id), ite_self]

theorem updateEntry_name (e : ToolCallAcc) (tc : ToolCallDelta) :
    (updateEntry e tc).name = pyOr (tc.function.bind FunctionDelta.name) e.name := by
  cases hf : tc.function with
  | none =>
    simp [updateEntry, hf, pyOr, apply_ite (fun r : ToolCallAcc => r.name), ite_self]
  | some f =>
    cases hn : f.name with
    | none =>
      simp [updateEntry, hf, hn, truthy, pyOr,
        apply_ite (fun r : ToolCallAcc => r.name), ite_self]
    | some s =>
      by_cases hs : s = "" <;>
        simp [updateEntry, hf, hn, hs, truthy, pyOr,
          apply_ite (fun r : ToolCallAcc => r.name), ite_self]

/-- Last element of a cons as an `Option.or`. -/
theorem getLast?_cons_or {β : Type} (a : β) (t : List β) :
    (a :: t).getLast? = (t.getLast?).or (some a) := by
  cases t with
  | nil => rfl
  | cons b t =>
    rw [List.getLast?_cons_cons]
    obtain ⟨x, hx⟩ : ∃ x, (b :: t).getLast? = some x :=
      Option.isSome_iff_exists.mp (by simp [List.getLast?_isSome])
    rw [hx]
    rfl

/-- Pushing one leading fragment into the last-non-empty-with-default
computation: a leading empty fragment is ignored, a leading non-empty
fragment becomes the fallback default. -/
theorem lastNE_cons_getD (s : String) (l : List String) (d : String) :
    (lastNE (s :: l)).getD d = (lastNE l).getD (pyOr (some s) d) := by
  by_cases hs : s = ""
  · subst hs
    simp [lastNE, pyOr, List.filter_cons]
  · unfold lastNE
    rw [List.filter_cons_of_pos (by simp [hs]), getLast?_cons_or]
    cases (l.filter (fun s => s ≠ "")).getLast? <;> simp [pyOr, hs]

/-- Complete characterization of an entry evolved by a list of its own
increments: id and name are the last non-empty fragments (falling back
to the starting values), arguments extend by the concatenation of the
argument fragments in arrival order. -/
theorem entrySteps_spec (l : List ToolCallDelta) : ∀ e : ToolCallAcc,
    (entrySteps e l).arguments =
        e.arguments ++ concatList (l.filterMap (fun tc => tc.function.bind FunctionDelta.arguments))
    ∧ (entrySteps e l).id = (lastNE (l.filterMap ToolCallDelta.id)).getD e.id
    ∧ (entrySteps e l).name =
        (lastNE (l.filterMap (fun tc => tc.function.bind FunctionDelta.name))).getD e.name := by
  induction l with
  | nil =>
    intro e
    simp [entrySteps, concatList, lastNE, String.append_empty]
  | cons tc l ih =>
    intro e
    obtain ⟨iha, ihi, ihn⟩ := ih (updateEntry e tc)
    refine ⟨?_, ?_, ?_⟩
    · rw [show entrySteps e (tc :: l) = entrySteps (updateEntry e tc) l from rfl, iha,
        updateEntry_arguments]
      cases hf : (tc.function.bind FunctionDelta.arguments) with
      | none => simp [List.filterMap_cons, hf, String.append_empty]
      | some s => simp [List.filterMap_cons, hf, concatList, String.append_assoc]
    · rw [show entrySteps e (tc :: l) = entrySteps (updateEntry e tc) l from rfl, ihi,
        updateEntry_id]
      cases hi : tc.id with
      | none => simp [List.filterMap_cons, hi, pyOr]
      | some s => rw [List.filterMap_cons, hi, lastNE_cons_getD]
    · rw [show entrySteps e (tc :: l) = entrySteps (updateEntry e tc) l from rfl, ihn,
        updateEntry_name]
      cases hn : (tc.function.bind FunctionDelta.name) with
      | none => simp [List.filterMap_cons, hn, pyOr]
      | some s => rw [List.filterMap_cons, hn, lastNE_cons_getD]

/-- The `pyOr` fallback collapses when the default is itself the same
`pyOr`. -/
theorem pyOr_pyOr (o : Option String) (d : String) : pyOr o (pyOr o d) = pyOr o d := by
  cases o with
  | none => rfl
  | some s => by_cases hs : s = "" <;> simp [pyOr, hs]

/-- Complete characterization of an index's entry built from scratch by
a non-empty list of its own increments. -/
theorem stepListOpt_none_spec (i : Nat) (l : List ToolCallDelta) (hne : l ≠ [])
    (hidx : ∀ tc ∈ l, tc.index = i) :
    stepListOpt none l =
      some ⟨(lastNE (l.filterMap ToolCallDelta.id)).getD ("call_" ++ toString i),
            (lastNE (l.filterMap (fun tc => tc.function.bind FunctionDelta.name))).getD "",
            concatList (l.filterMap (fun tc => tc.function.bind FunctionDelta.arguments))⟩ := by
  cases l with
  | nil => exact absurd rfl hne
  | cons tc l =>
    have hi : tc.index = i := hidx tc (List.mem_cons_self tc l)
    rw [show stepListOpt none (tc :: l) =
        stepListOpt (some (updateEntry (initEntry tc.index tc.id) tc)) l from rfl,
      stepListOpt_some]
    obtain ⟨ha, hid, hn⟩ := entrySteps_spec l (updateEntry (initEntry tc.index tc.id) tc)
    have e0a : (updateEntry (initEntry tc.index tc.id) tc).arguments =
        (tc.function.bind FunctionDelta.arguments).getD "" := by
      rw [updateEntry_arguments]
      exact String.empty_append _
    have e0i : (updateEntry (initEntry tc.index tc.id) tc).id =
        pyOr tc.id ("call_" ++ toString i) := by
      rw [updateEntry_id]
      show pyOr tc.id (pyOr tc.id ("call_" ++ toString tc.index)) = _
      rw [pyOr_pyOr, hi]
    have e0n : (updateEntry (initEntry tc.index tc.id) tc).name =
        pyOr (tc.function.bind FunctionDelta.name) "" := by
      rw [updateEntry_name]
      rfl
    have hfields : ∀ x y : ToolCallAcc,
        x.id = y.id → x.name = y.name → x.arguments = y.arguments → x = y := by
      intro x y h1 h2 h3
      cases x; cases y
      cases h1; cases h2; cases h3
      rfl
    refine congrArg some (hfields _ _ ?_ ?_ ?_)
    · dsimp only
      rw [hid, e0i]
      cases hti : tc.id with
      | none => simp [List.filterMap_cons, hti, pyOr]
      | some s =>
        rw [List.filterMap_cons, hti]
        dsimp only
        rw [lastNE_cons_getD]
    · dsimp only
      rw [hn, e0n]
      cases htn : (tc.function.bind FunctionDelta.name) with
      | none => simp [List.filterMap_cons, htn, pyOr]
      | some s =>
        rw [List.filterMap_cons, htn]
        dsimp only
        rw [lastNE_cons_getD]
    · dsimp only
      rw [ha, e0a]
      cases htf : (tc.function.bind FunctionDelta.arguments) with
      | none => simp [List.filterMap_cons, htf, concatList, String.empty_append]
      | some s => simp [List.filterMap_cons, htf, concatList]

/-- Applying a flat list of tool-call increments touches each index only
through its own increments, in arrival order. -/
theorem lookup_applyTCList {α : Type} (l : List ToolCallDelta) :
    ∀ (calls : List (Nat × ToolCallAcc)) (i : Nat),
      lookupCall (applyTCList (α := α) calls l).1 i =
        stepListOpt (lookupCall calls i) (l.filter (fun tc => tc.index = i)) := by
  induction l with
  | nil => intro calls i; rfl
  | cons tc l ih =>
    intro calls i
    rw [show (applyTCList (α := α) calls (tc :: l)).1 =
        (applyTCList (α := α) (applyCallsUpdate calls tc) l).1 from rfl, ih,
      lookup_applyCallsUpdate]
    by_cases h : tc.index = i
    · rw [if_pos h, List.filter_cons_of_pos (by simp [h])]
      rw [show stepListOpt (lookupCall calls i) (tc :: l.filter (fun tc => tc.index = i)) =
          stepListOpt (some (updateEntry ((lookupCall calls i).getD (initEntry tc.index tc.id))
            tc)) (l.filter (fun tc => tc.index = i)) from rfl]
      unfold updatedEntry
      rw [h]
    · rw [if_neg h, List.filter_cons_of_neg (by simp [h])]

/-- The accumulator state after the whole stream, viewed index by index:
each index's entry is the fold of exactly its own increments, in arrival
order, over the initial absence. -/
theorem lookup_processStreamFrom {α : Type} (ds : List Delta) :
    ∀ (st : StreamState) (i : Nat),
      lookupCall (processStreamFrom (α := α) st ds).1.calls i =
        stepListOpt (lookupCall st.calls i) ((allTCs ds).filter (fun tc => tc.index = i)) := by
  induction ds with
  | nil => intro st i; simp [processStreamFrom, allTCs, stepListOpt]
  | cons d ds ih =>
    intro st i
    rw [show (processStreamFrom (α := α) st (d :: ds)).1 =
        (processStreamFrom (α := α) (applyDelta (α := α) st d).1 ds).1 from rfl, ih]
    have hcalls : (applyDelta (α := α) st d).1.calls = (applyTCList (α := α) st.calls d.tool_calls).1 := by
      simp [applyDelta]
    rw [hcalls, lookup_applyTCList]
    rw [show allTCs (d :: ds) = d.tool_calls ++ allTCs ds from by
      simp [allTCs, List.map_cons, List.flatten_cons]]
    rw [List.filter_append, stepListOpt_append]

/-- C4: for every stream and every index appearing in it, the completed
accumulator entry for that index holds the last non-empty id fragment
(defaulting to the synthesized `call_i`), the last non-empty name
fragment (defaulting to the empty string) and the concatenation, in
arrival order, of exactly that index's argument fragments — whatever
the interleaving with other indices. -/
theorem c4_accumulator {α : Type} (ds : List Delta) (i : Nat) (h : tcds ds i ≠ []) :
    ∃ e : ToolCallAcc,
      lookupCall (processStream (α := α) ds).1.calls i = some e
      ∧ e.id = (lastNE (idFrags ds i)).getD ("call_" ++ toString i)
      ∧ e.name = (lastNE (nameFrags ds i)).getD ""
      ∧ e.arguments = concatList (argFrags ds i) := by
  have hidx : ∀ tc ∈ tcds ds i, tc.index = i := by
    intro tc htc
    have := List.mem_filter.mp htc
    exact of_decide_eq_true this.2
  have hmain := lookup_processStreamFrom (α := α) ds ⟨"", []⟩ i
  rw [show lookupCall (StreamState.mk "" []).calls i = none from rfl] at hmain
  rw [show (allTCs ds).filter (fun tc => tc.index = i) = tcds ds i from rfl] at hmain
  rw [stepListOpt_none_spec i (tcds ds i) h hidx] at hmain
  exact ⟨_, hmain, rfl, rfl, rfl⟩

/-- An interleaved stream used in the C4 witness: index 0 receives its
name first, then two argument fragments separated by an increment of
index 1. -/
def wDs4 : List Delta :=
  [⟨none, [⟨0, some "call_1", some ⟨some "Foo", none⟩⟩]⟩,
   ⟨none, [⟨0, none, some ⟨none, some "ab"⟩⟩]⟩,
   ⟨none, [⟨1, none, some ⟨some "Bar", some "X"⟩⟩]⟩,
   ⟨none, [⟨0, none, some ⟨none, some "cd"⟩⟩]⟩]

/-- Witness for C4 at a concrete interleaved stream. -/
theorem c4_witness :
    ∃ e : ToolCallAcc,
      lookupCall (processStream (α := Nat) wDs4).1.calls 0 = some e
      ∧ e.id = (lastNE (idFrags wDs4 0)).getD ("call_" ++ toString 0)
      ∧ e.name = (lastNE (nameFrags wDs4 0)).getD ""
      ∧ e.arguments = concatList (argFrags wDs4 0) :=
  c4_accumulator wDs4 0 (by decide)

/-- A dispatch that sets the executed flag appended at least one
message. -/
theorem dispatch_executed_msgs {α : Type} (parse : String → Option α)
    (tools : List (ToolE α)) (content : String) :
    ∀ (calls : List ToolCallAcc) (ex : Bool),
      (dispatchCalls parse tools content calls ex).executed = true →
      ex = true ∨ (dispatchCalls parse tools content calls ex).msgs ≠ [] := by
  intro calls
  induction calls with
  | nil => intro ex h; exact Or.inl h
  | cons c rest ih =>
    intro ex h
    cases hp : parse c.arguments with
    | none =>
      simp only [dispatchCalls, hp] at h
      exact Or.inl h
    | some a =>
      cases hft : findTool tools c.name with
      | none =>
        simp only [dispatchCalls, hp, hft] at h ⊢
        exact ih ex h
      | some t =>
        cases hrun : t.run a with
        | error e =>
          simp only [dispatchCalls, hp, hft, hrun] at h
          exact Or.inl h
        | ok r =>
          refine Or.inr ?_
          simp [dispatchCalls, hp, hft, hrun]

/-- The body of one attempt calls its recursive continuation only at a
strictly longer message list, so its outcome only depends on the
continuation's values there. -/
theorem attemptOnce_congr {α : Type} (parse : String → Option α) (tools : List (ToolE α))
    (tb : TransportBehavior) (m : List Message) (r1 r2 : List Message → LoopRes α)
    (h : ∀ m', m.length < m'.length → r1 m' = r2 m') :
    attemptOnce parse tools tb m r1 = attemptOnce parse tools tb m r2 := by
  cases tb with
  | fail ds e => rfl
  | succeed ds =>
    simp only [attemptOnce]
    cases herr : (dispatchCalls parse tools (processStream (α := α) ds).1.content
        ((processStream (α := α) ds).1.calls.map Prod.snd) false).err with
    | some e => rfl
    | none =>
      cases hex : (dispatchCalls parse tools (processStream (α := α) ds).1.content
          ((processStream (α := α) ds).1.calls.map Prod.snd) false).executed with
      | false => rfl
      | true =>
        have hne := (dispatch_executed_msgs parse tools (processStream (α := α) ds).1.content
          ((processStream (α := α) ds).1.calls.map Prod.snd) false hex).resolve_left
          (by simp)
        have hlen : m.length < (m ++ (dispatchCalls parse tools
            (processStream (α := α) ds).1.content
            ((processStream (α := α) ds).1.calls.map Prod.snd) false).msgs).length := by
          rw [List.length_append]
          have := List.length_pos.mpr hne
          omega
        rw [h _ hlen]

/-- One attempt never shortens the message list, given a continuation
that never shortens it. -/
theorem attemptOnce_msgs_len {α : Type} (parse : String → Option α) (tools : List (ToolE α))
    (tb : TransportBehavior) (m : List Message) (recur : List Message → LoopRes α)
    (hrec : ∀ m', m'.length ≤ (recur m').msgs.length) :
    m.length ≤ (attemptOnce parse tools tb m recur).msgs.length := by
  cases tb with
  | fail ds e => exact le_refl _
  | succeed ds =>
    simp only [attemptOnce]
    cases herr : (dispatchCalls parse tools (processStream (α := α) ds).1.content
        ((processStream (α := α) ds).1.calls.map Prod.snd) false).err with
    | some e => simp
    | none =>
      cases hex : (dispatchCalls parse tools (processStream (α := α) ds).1.content
          ((processStream (α := α) ds).1.calls.map Prod.snd) false).executed with
      | false => simp
      | true =>
        refine le_trans ?_ (hrec _)
        simp

/-- The retry shell never shortens the message list. -/
theorem runAttempts_msgs_len {α : Type} (body : Nat → List Message → LoopRes α)
    (hbody : ∀ a m, m.length ≤ (body a m).msgs.length) :
    ∀ (r a : Nat) (m : List Message), m.length ≤ (runAttempts body a r m).msgs.length := by
  intro r
  induction r with
  | zero => intro a m; exact le_refl _
  | succ r ih =>
    intro a m
    simp only [runAttempts]
    cases herr : (body a m).err with
    | none => exact hbody a m
    | some e =>
      by_cases hr : r = 0
      · subst hr
        simpa using hbody a m
      · simp only [hr, if_false, reduceIte]
        exact le_trans (hbody a m) (ih (a + 1) (body a m).msgs)

/-- The loop never shortens the message list. -/
theorem agenticLoop_msgs_len {α : Type} (parse : String → Option α) (tools : List (ToolE α))
    (oracle : List Message → Nat → TransportBehavior) :
    ∀ (fuel : Nat) (m : List Message),
      m.length ≤ (agenticLoop true parse tools oracle fuel m).msgs.length := by
  intro fuel
  induction fuel with
  | zero => intro m; exact le_refl _
  | succ fuel ih =>
    intro m
    simp only [agenticLoop, if_true]
    exact runAttempts_msgs_len _
      (fun a m' => attemptOnce_msgs_len parse tools (oracle m' a) m' _ ih)
      stopAfterAttempt 1 m

/-- The retry shell is extensional in bodies that agree above a length
threshold, as long as they never shorten the message list. -/
theorem runAttempts_congr {α : Type} (b1 b2 : Nat → List Message → LoopRes α) (L : Nat)
    (hgrow : ∀ a m, m.length ≤ (b1 a m).msgs.length)
    (heq : ∀ a m, L < m.length → b1 a m = b2 a m) :
    ∀ (r a : Nat) (m : List Message), L < m.length →
      runAttempts b1 a r m = runAttempts b2 a r m := by
  intro r
  induction r with
  | zero => intro a m _; rfl
  | succ r ih =>
    intro a m hm
    simp only [runAttempts]
    rw [← heq a m hm]
    cases herr : (b1 a m).err with
    | none => rfl
    | some e =>
      by_cases hr : r = 0
      · subst hr; rfl
      · simp only [hr, if_false, reduceIte]
        rw [ih (a + 1) (b1 a m).msgs (lt_of_lt_of_le hm (hgrow a m))]

/-- The loop is extensional in transport oracles that agree at every
message list longer than a threshold, when started above that
threshold. -/
theorem agenticLoop_congr {α : Type} (parse : String → Option α) (tools : List (ToolE α))
    (o1 o2 : List Message → Nat → TransportBehavior) (L : Nat)
    (hO : ∀ m a, L < m.length → o1 m a = o2 m a) :
    ∀ (fuel : Nat) (m : List Message), L < m.length →
      agenticLoop true parse tools o1 fuel m = agenticLoop true parse tools o2 fuel m := by
  intro fuel
  induction fuel with
  | zero => intro m _; rfl
  | succ fuel ih =>
    intro m hm
    simp only [agenticLoop, if_true]
    refine runAttempts_congr _ _ L
      (fun a m' => attemptOnce_msgs_len parse tools (o1 m' a) m' _
        (agenticLoop_msgs_len parse tools o1 fuel))
      (fun a m' hm' => ?_) stopAfterAttempt 1 m hm
    rw [hO m' a hm']
    exact attemptOnce_congr parse tools (o2 m' a) m' _ _
      (fun m'' hlt => ih m'' (lt_trans hm' hlt))

/-- Unfolding the retry shell at a successful attempt. -/
theorem runAttempts_none {α : Type} (body : Nat → List Message → LoopRes α)
    (a r : Nat) (m : List Message) (h : (body a m).err = none) :
    runAttempts body a (r + 1) m = body a m := by
  simp [runAttempts, h]

/-- Unfolding the retry shell at a successful attempt, with 3 attempts
remaining. -/
theorem runAttempts3_none {α : Type} (body : Nat → List Message → LoopRes α)
    (a : Nat) (m : List Message) (h : (body a m).err = none) :
    runAttempts body a 3 m = body a m :=
  runAttempts_none body a 2 m h

/-- Unfolding the retry shell at a successful attempt, with 2 attempts
remaining. -/
theorem runAttempts2_none {α : Type} (body : Nat → List Message → LoopRes α)
    (a : Nat) (m : List Message) (h : (body a m).err = none) :
    runAttempts body a 2 m = body a m :=
  runAttempts_none body a 1 m h

/-- Unfolding the retry shell at a successful attempt, with 1 attempt
remaining. -/
theorem runAttempts1_none {α : Type} (body : Nat → List Message → LoopRes α)
    (a : Nat) (m : List Message) (h : (body a m).err = none) :
    runAttempts body a 1 m = body a m :=
  runAttempts_none body a 0 m h

/-- Unfolding the retry shell at a failed attempt that still has at
least one retry left. -/
theorem runAttempts_some {α : Type} (body : Nat → List Message → LoopRes α)
    (a r : Nat) (m : List Message) (e : String)
    (h : (body a m).err = some e) (hr : r ≠ 0) :
    runAttempts body a (r + 1) m =
      ⟨(body a m).events ++ (runAttempts body (a + 1) r (body a m).msgs).events,
       (runAttempts body (a + 1) r (body a m).msgs).msgs,
       (runAttempts body (a + 1) r (body a m).msgs).err,
       (body a m).waits ++ waitFixed :: (runAttempts body (a + 1) r (body a m).msgs).waits⟩ := by
  simp [runAttempts, h, hr]

/-- Unfolding the retry shell at a failed attempt with 3 attempts
remaining. -/
theorem runAttempts3_some {α : Type} (body : Nat → List Message → LoopRes α)
    (a : Nat) (m : List Message) (e : String) (h : (body a m).err = some e) :
    runAttempts body a 3 m =
      ⟨(body a m).events ++ (runAttempts body (a + 1) 2 (body a m).msgs).events,
       (runAttempts body (a + 1) 2 (body a m).msgs).msgs,
       (runAttempts body (a + 1) 2 (body a m).msgs).err,
       (body a m).waits ++ waitFixed :: (runAttempts body (a + 1) 2 (body a m).msgs).waits⟩ :=
  runAttempts_some body a 2 m e h (by omega)

/-- Unfolding the retry shell at a failed attempt with 2 attempts
remaining. -/
theorem runAttempts2_some {α : Type} (body : Nat → List Message → LoopRes α)
    (a : Nat) (m : List Message) (e : String) (h : (body a m).err = some e) :
    runAttempts body a 2 m =
      ⟨(body a m).events ++ (runAttempts body (a + 1) 1 (body a m).msgs).events,
       (runAttempts body (a + 1) 1 (body a m).msgs).msgs,
       (runAttempts body (a + 1) 1 (body a m).msgs).err,
       (body a m).waits ++ waitFixed :: (runAttempts body (a + 1) 1 (body a m).msgs).waits⟩ :=
  runAttempts_some body a 1 m e h (by omega)

/-- A transport that fails mid-stream on attempt 1 after yielding the
fragment `Hi`, then succeeds. -/
def wOracleMid : List Message → Nat → TransportBehavior := fun _ a =>
  if a = 1 then TransportBehavior.fail [⟨some "Hi", []⟩] "boom"
  else TransportBehavior.succeed [⟨some "Hi", []⟩]

/-- A transport that succeeds immediately with the same stream. -/
def wOracleClean : List Message → Nat → TransportBehavior := fun _ _ =>
  TransportBehavior.succeed wDsHi

/-- C7 fails on the code: the loop is a generator, so Text events
yielded from a partially drained stream before a mid-stream transport
failure remain visible to the caller; a run whose first attempt fails
after yielding `Hi` and whose second attempt succeeds shows `Hi` twice,
unlike the clean first-attempt run. -/
theorem c7_counterexample :
    (agenticLoop (α := Nat) true wParse [] wOracleMid 1 []).events =
      [AgentEvent.text "Hi", AgentEvent.text "Hi"]
    ∧ (agenticLoop (α := Nat) true wParse [] wOracleClean 1 []).events =
      [AgentEvent.text "Hi"]
    ∧ (agenticLoop (α := Nat) true wParse [] wOracleMid 1 []).events ≠
      (agenticLoop (α := Nat) true wParse [] wOracleClean 1 []).events := by
  refine ⟨rfl, rfl, ?_⟩
  decide

/-- C7 as amended: when every failing attempt raises at request
issuance, before yielding any fragment, a run that fails on attempts
`1..k-1` and succeeds on attempt `k ≤ 3` yields to its caller exactly
the same events, final messages and outcome as the clean run that
succeeds on its first attempt with the same behavior; only the internal
retry sleeps differ.  A failing attempt that first yields fragments
breaks this equivalence (see the counterexample). -/
theorem c7_fault_equivalence {α : Type} (parse : String → Option α) (tools : List (ToolE α))
    (oracleF oracleS : List Message → Nat → TransportBehavior) (k fuel : Nat)
    (msgs : List Message)
    (hk1 : 1 ≤ k) (hk3 : k ≤ stopAfterAttempt)
    (hfail : ∀ a, 1 ≤ a → a < k → ∃ e, oracleF msgs a = TransportBehavior.fail [] e)
    (hkth : oracleF msgs k = oracleS msgs 1)
    (hrest : ∀ m a, m ≠ msgs → oracleF m a = oracleS m a)
    (hclean : (attemptOnce parse tools (oracleS msgs 1) msgs
        (agenticLoop true parse tools oracleS fuel)).err = none) :
    (agenticLoop true parse tools oracleF (fuel + 1) msgs).events =
      (agenticLoop true parse tools oracleS (fuel + 1) msgs).events
    ∧ (agenticLoop true parse tools oracleF (fuel + 1) msgs).msgs =
      (agenticLoop true parse tools oracleS (fuel + 1) msgs).msgs
    ∧ (agenticLoop true parse tools oracleF (fuel + 1) msgs).err =
      (agenticLoop true parse tools oracleS (fuel + 1) msgs).err := by
  have hOagree : ∀ m a, msgs.length < m.length → oracleF m a = oracleS m a := by
    intro m a hm
    refine hrest m a (fun h => ?_)
    rw [h] at hm
    exact lt_irrefl _ hm
  have hloops : ∀ m, msgs.length < m.length →
      agenticLoop true parse tools oracleF fuel m =
        agenticLoop true parse tools oracleS fuel m :=
    agenticLoop_congr parse tools oracleF oracleS msgs.length hOagree fuel
  have hbody : ∀ a, oracleF msgs a = oracleS msgs 1 →
      attemptOnce parse tools (oracleF msgs a) msgs
          (agenticLoop true parse tools oracleF fuel) =
        attemptOnce parse tools (oracleS msgs 1) msgs
          (agenticLoop true parse tools oracleS fuel) := by
    intro a ha
    rw [ha]
    exact attemptOnce_congr parse tools (oracleS msgs 1) msgs _ _ (fun m' h => hloops m' h)
  have hSrun : agenticLoop true parse tools oracleS (fuel + 1) msgs =
      attemptOnce parse tools (oracleS msgs 1) msgs
        (agenticLoop true parse tools oracleS fuel) := by
    rw [show agenticLoop true parse tools oracleS (fuel + 1) msgs =
        runAttempts (fun a m => attemptOnce parse tools (oracleS m a) m
          (agenticLoop true parse tools oracleS fuel)) 1 stopAfterAttempt msgs from by
      simp only [agenticLoop, if_true]]
    exact runAttempts3_none _ 1 msgs hclean
  rw [hSrun]
  rw [show agenticLoop true parse tools oracleF (fuel + 1) msgs =
      runAttempts (fun a m => attemptOnce parse tools (oracleF m a) m
        (agenticLoop true parse tools oracleF fuel)) 1 stopAfterAttempt msgs from by
    simp only [agenticLoop, if_true]]
  rw [show stopAfterAttempt = 3 from rfl] at hk3 ⊢
  interval_cases k
  · rw [runAttempts3_none _ 1 msgs (by rw [hbody 1 hkth]; exact hclean)]
    rw [hbody 1 hkth]
    exact ⟨rfl, rfl, rfl⟩
  · obtain ⟨e1, he1⟩ := hfail 1 (le_refl 1) (by omega)
    have hb1 : attemptOnce parse tools (oracleF msgs 1) msgs
        (agenticLoop true parse tools oracleF fuel) =
        ⟨[], msgs, some e1, []⟩ := by
      rw [he1]
      rfl
    rw [runAttempts3_some _ 1 msgs e1 (by rw [hb1])]
    rw [hb1]
    dsimp only
    rw [runAttempts2_none _ (1 + 1) msgs (by rw [hbody (1 + 1) hkth]; exact hclean)]
    rw [hbody (1 + 1) hkth]
    exact ⟨List.nil_append _, rfl, rfl⟩
  · obtain ⟨e1, he1⟩ := hfail 1 (le_refl 1) (by omega)
    obtain ⟨e2, he2⟩ := hfail 2 (by omega) (by omega)
    have hb1 : attemptOnce parse tools (oracleF msgs 1) msgs
        (agenticLoop true parse tools oracleF fuel) =
        ⟨[], msgs, some e1, []⟩ := by
      rw [he1]
      rfl
    have hb2 : attemptOnce parse tools (oracleF msgs (1 + 1)) msgs
        (agenticLoop true parse tools oracleF fuel) =
        ⟨[], msgs, some e2, []⟩ := by
      rw [show (1 + 1 : Nat) = 2 from rfl, he2]
      rfl
    rw [runAttempts3_some _ 1 msgs e1 (by rw [hb1])]
    rw [hb1]
    dsimp only
    rw [runAttempts2_some _ (1 + 1) msgs e2 (by rw [hb2])]
    rw [hb2]
    dsimp only
    rw [runAttempts1_none _ (1 + 1 + 1) msgs
      (by rw [hbody (1 + 1 + 1) hkth]; exact hclean)]
    rw [hbody (1 + 1 + 1) hkth]
    refine ⟨?_, rfl, rfl⟩
    rw [List.nil_append, List.nil_append]

/-- A transport that fails at request issuance on attempt 1 of the
initial round and succeeds on every other occasion. -/
def wOracleF2 : List Message → Nat → TransportBehavior := fun m a =>
  if a = 1 ∧ m = [] then TransportBehavior.fail [] "boom"
  else TransportBehavior.succeed wDsHi

/-- Witness for C7 as amended: one request-issuance failure followed by
a clean attempt is observationally equal to the clean run. -/
theorem c7_witness :
    (agenticLoop (α := Nat) true wParse [] wOracleF2 1 []).events =
      (agenticLoop (α := Nat) true wParse [] wOracleClean 1 []).events
    ∧ (agenticLoop (α := Nat) true wParse [] wOracleF2 1 []).msgs =
      (agenticLoop (α := Nat) true wParse [] wOracleClean 1 []).msgs
    ∧ (agenticLoop (α := Nat) true wParse [] wOracleF2 1 []).err =
      (agenticLoop (α := Nat) true wParse [] wOracleClean 1 []).err :=
  c7_fault_equivalence wParse [] wOracleF2 wOracleClean 2 0 []
    (by omega) (by decide)
    (fun a h1 h2 => by
      have ha : a = 1 := by omega
      subst ha
      exact ⟨"boom", rfl⟩)
    rfl
    (fun m a hm => by simp [wOracleF2, wOracleClean, hm])
    rfl

/-- C9: the subagent spawner is fire-and-forget and isolated.  The
string returned to the launcher is the fixed acknowledgement, identical
whatever the subagent's run produces (so the call does not await the
subagent); the subagent's events reach only the prefixed side-channel
log; a subagent exception is absorbed into a `[SUBAGENT ERROR]` log line
and the acknowledgement is returned regardless; and a launcher round
that dispatches the spawn tool yields exactly its own
ToolInvoked/ToolCompleted pair carrying the acknowledgement and appends
exactly its own two messages — none of the subagent's events or state
appear in them. -/
theorem c9_subagent_isolation {α : Type} (task : String) (evs evs' : List (AgentEvent α))
    (err err' : Option String) :
    (spawnSubagent task evs err).1 = (spawnSubagent task evs' err').1
    ∧ (spawnSubagent task evs err).1 = ackText task
    ∧ (∀ e, err = some e →
        (spawnSubagent task evs err).2 =
          (evs.foldl subStep ("", [])).2 ++ ["[SUBAGENT ERROR] " ++ e])
    ∧ (∀ (parse : String → Option α) (a : α) (c : ToolCallAcc) (content : String),
        parse c.arguments = some a → c.name = "ToolSpawnSubagent" →
        dispatchCalls parse
            [⟨"ToolSpawnSubagent", fun _ => Except.ok (spawnSubagent task evs err).1⟩]
            content [c] false =
          ⟨[AgentEvent.toolUse c.name a, AgentEvent.toolResult c.name a (ackText task)],
           [Message.assistantCall content c, Message.tool c.id (ackText task)],
           true, none⟩) := by
  refine ⟨rfl, rfl, ?_, ?_⟩
  · intro e he
    subst he
    rfl
  · intro parse a c content hp hn
    have hft : findTool (α := α)
        [⟨"ToolSpawnSubagent", fun _ => Except.ok (spawnSubagent task evs err).1⟩] c.name =
        some ⟨"ToolSpawnSubagent", fun _ => Except.ok (spawnSubagent task evs err).1⟩ := by
      simp [findTool, hn]
    simp only [dispatchCalls, hp, hft]
    rfl

/-- Witness for C9: a subagent run that yields one text event and then
raises is absorbed into the side log, and the launcher's dispatch of the
spawn tool carries only the acknowledgement. -/
theorem c9_witness :
    (spawnSubagent (α := Nat) "t" [AgentEvent.text "x"] (some "boom")).2 =
      (([AgentEvent.text "x"] : List (AgentEvent Nat)).foldl subStep ("", [])).2 ++
        ["[SUBAGENT ERROR] boom"]
    ∧ dispatchCalls wParse
        [⟨"ToolSpawnSubagent", fun _ =>
          Except.ok (spawnSubagent (α := Nat) "t" [AgentEvent.text "x"] (some "boom")).1⟩]
        "" [⟨"id0", "ToolSpawnSubagent", "ok"⟩] false =
      ⟨[AgentEvent.toolUse "ToolSpawnSubagent" 0,
        AgentEvent.toolResult "ToolSpawnSubagent" 0 (ackText "t")],
       [Message.assistantCall "" ⟨"id0", "ToolSpawnSubagent", "ok"⟩,
        Message.tool "id0" (ackText "t")],
       true, none⟩ :=
  ⟨(c9_subagent_isolation "t" [AgentEvent.text "x"] [] (some "boom") none).2.2.1 "boom" rfl,
   (c9_subagent_isolation "t" [AgentEvent.text "x"] [] (some "boom") none).2.2.2
     wParse 0 ⟨"id0", "ToolSpawnSubagent", "ok"⟩ "" (by decide) rfl⟩

end BabyManus
